import Mathlib

/-
  Verification of the intercom-panel generator
  (porttelefon-navnegenerator/generate_intercom_pdf.py).

  Strings are modelled as lists of characters; the Python string
  operations used by the program (strip, upper, split, the trailing
  four-digit regular expression) are embedded below.  The PDF drawing
  layer is a collaborator and is out of scope; the embedded parts are
  parse_seksjonsid, the per-row logic of read_rows, and
  build_boxes_for_oppgang.
-/

deriving instance DecidableEq for Except

namespace Intercom

abbrev Str := List Char

/-- ASCII whitespace as stripped by the Python str.strip method
(space, tab, newline, carriage return, vertical tab, form feed).
The inputs exercised here are ASCII, so the extra Unicode whitespace
stripped by Python does not matter. -/
def pyIsSpace (c : Char) : Bool :=
  c.toNat = 32 || c.toNat = 9 || c.toNat = 10 || c.toNat = 13 ||
  c.toNat = 11 || c.toNat = 12

def lstrip (s : Str) : Str := s.dropWhile pyIsSpace

def rstrip (s : Str) : Str := (s.reverse.dropWhile pyIsSpace).reverse

/-- Python str.strip: remove leading and trailing whitespace. -/
def pyStrip (s : Str) : Str := rstrip (lstrip s)

/-- Python str.upper on ASCII text. -/
def pyUpper (s : Str) : Str := s.map Char.toUpper

/-- Python s.split(sep, 1): none when sep does not occur, otherwise
the part before the first sep and the part after it. -/
def splitFirst (sep : Char) : Str → Option (Str × Str)
  | [] => none
  | c :: cs =>
    if c = sep then some ([], cs)
    else
      match splitFirst sep cs with
      | none => none
      | some pr => some (c :: pr.1, pr.2)

/-- Python s.split(sep) with no limit: the list of fields. -/
def splitAll (sep : Char) : Str → List Str
  | [] => [[]]
  | c :: cs =>
    if c = sep then [] :: splitAll sep cs
    else
      match splitAll sep cs with
      | [] => [[c]]
      | t :: ts => (c :: t) :: ts

/-- Python seksjonsid.split(sep)[1]: the field between the first and
second separator (the default is unreachable where this is used,
because the identifier is known to contain a separator). -/
def splitField1 (sep : Char) (s : Str) : Str := (splitAll sep s).getD 1 []

/-- The text before the first separator bar. -/
def beforeBar (s : Str) : Str := s.takeWhile (fun c => !(c == '|'))

/-- The text after the first separator bar. -/
def afterBar (s : Str) : Str := (s.dropWhile (fun c => !(c == '|'))).tail

/-- Does the string end in four consecutive digit characters
(its last four characters exist and are digits)? -/
def endsIn4Digits (r : Str) : Bool :=
  decide (4 ≤ r.length) && (r.drop (r.length - 4)).all Char.isDigit

/-- Does the string end in exactly four consecutive digits: its last
four characters are digits, and the character just before them, when
present, is not a digit?  This is the condition the specification
words describe. -/
def endsInExactlyFourDigits (r : Str) : Bool :=
  decide (4 ≤ r.length) && (r.reverse.take 4).all Char.isDigit &&
  !((r.reverse.getD 4 ' ').isDigit)

/-- The regular expression search for four digits followed by optional
whitespace at the end of the string: it succeeds exactly when the
right-stripped string ends in four consecutive digits, and returns
those last four characters.  Runs of more than four digits also match,
with the group being the last four of them. -/
def regexLast4 (r : Str) : Option Str :=
  let core := rstrip r
  if endsIn4Digits core then some (core.drop (core.length - 4)) else none

/-- Python int on a string of digit characters. -/
def digitsToNat (s : Str) : Nat :=
  s.foldl (fun a c => 10 * a + (c.toNat - 48)) 0

inductive Side where
  | L
  | R
deriving DecidableEq

inductive Band where
  | TOP
  | BOT
deriving DecidableEq

/-- The result of parse_seksjonsid: entrance letter, floor, unit
suffix, and the side derived from the unit suffix. -/
structure Parsed where
  oppgang : Str
  etasje : Nat
  unit : Str
  side_by_unit : Side
deriving DecidableEq

/-- parse_seksjonsid from the source: reject the empty string, split on
the first bar (each part stripped), reject when there is no bar, search
for a trailing four-digit run in the right part, reject when absent;
the first two of those digits are the floor, the last two the unit
suffix, and the side is L exactly for suffix 01. -/
def parse_seksjonsid (s : Str) : Except Str Parsed :=
  if s = [] then Except.error (("Tom SeksjonsID").data)
  else
    match splitFirst '|' s with
    | none => Except.error (("Mangler bar").data)
    | some pr =>
      match regexLast4 (pyStrip pr.2) with
      | none => Except.error (("Fant ikke 4 sifre").data)
      | some last4 =>
        Except.ok ⟨pyUpper (pyStrip pr.1), digitsToNat (last4.take 2), last4.drop 2,
          if last4.drop 2 = ("01").data then Side.L else Side.R⟩

/-- One data row of the delimited input after the header has been
matched: the raw content of the identifier column and of the name
column (empty when the column is missing).  The delimiter sniffing
and header-alias lookup of read_rows are input plumbing and are
abstracted into this structure; the claims concern only the per-row
logic below. -/
structure RawRow where
  seksjonsid : Str
  navn : Str
deriving DecidableEq

/-- A record as produced by read_rows: the dict with keys seksjonsid,
oppgang, etasje, unit, side_unit and display. -/
structure ApartmentRecord where
  seksjonsid : Str
  oppgang : Str
  etasje : Nat
  unit : Str
  side_unit : Side
  display : Str
deriving DecidableEq

/-- The body of the read_rows loop for one row: strip the identifier
and the name, skip the row when the identifier is blank (ok none),
parse the identifier (propagating its failure), and build the record;
the display text is the stripped name when non-empty, otherwise the
field of the identifier between the first and second bar, uppercased
in both cases. -/
def processRow (row : RawRow) : Except Str (Option ApartmentRecord) :=
  if pyStrip row.seksjonsid = [] then Except.ok none
  else
    match parse_seksjonsid (pyStrip row.seksjonsid) with
    | Except.error e => Except.error e
    | Except.ok p =>
      Except.ok (some ⟨pyStrip row.seksjonsid, p.oppgang, p.etasje, p.unit, p.side_by_unit,
        pyUpper (if pyStrip row.navn = []
          then splitField1 '|' (pyStrip row.seksjonsid)
          else pyStrip row.navn)⟩)

/-- read_rows restricted to its record-building loop: process the data
rows in order; any parse failure aborts the whole ingestion. -/
def read_rows : List RawRow → Except Str (List ApartmentRecord)
  | [] => Except.ok []
  | row :: rest =>
    match processRow row with
    | Except.error e => Except.error e
    | Except.ok none => read_rows rest
    | Except.ok (some rec) =>
      match read_rows rest with
      | Except.error e => Except.error e
      | Except.ok recs => Except.ok (rec :: recs)

/-- The base slot table of build_boxes_for_oppgang: floor 8 at the top
slot 0 down to floor 1 at the bottom slot 7; other floors absent. -/
def base_slot : Nat → Option Nat
  | 8 => some 0
  | 7 => some 1
  | 6 => some 2
  | 5 => some 3
  | 4 => some 4
  | 3 => some 5
  | 2 => some 6
  | 1 => some 7
  | _ => none

/-- The floors present in the group, restricted to the range 1 to 8
(the set comprehension of the source, as a list with possible
repetitions; only membership is ever used). -/
def present_floors (rows : List ApartmentRecord) : List Nat :=
  (rows.map (fun r => r.etasje)).filter (fun e => decide (1 ≤ e) && decide (e ≤ 8))

/-- The entrance-wide offset: how many of the floors 1, 2, 3, 4 are
missing from the present floors of the group. -/
def offset (rows : List ApartmentRecord) : Nat :=
  (([1, 2, 3, 4] : List Nat).filter
    (fun f => !(decide (f ∈ present_floors rows)))).length

/-- The number of floors among 1, 2, 3, 4 that are absent from the set
of distinct floors of the group lying in the range 1 to 8, stated the
way the specification words it. -/
def countMissingBottom (rows : List ApartmentRecord) : Nat :=
  (([1, 2, 3, 4] : List Nat).filter
    (fun f => decide (¬ ((∃ r ∈ rows, r.etasje = f) ∧ 1 ≤ f ∧ f ≤ 8)))).length

/-- The records of the group on floor 8. -/
def floor8 (rows : List ApartmentRecord) : List ApartmentRecord :=
  rows.filter (fun r => r.etasje == 8)

/-- Does the group have exactly one record on floor 8? -/
def single8 (rows : List ApartmentRecord) : Bool :=
  (floor8 rows).length == 1

/-- The side actually used for a record: the suffix-derived side,
overridden to R for a floor-8 record when the group has exactly one
record on floor 8. -/
def effSide (s8 : Bool) (r : ApartmentRecord) : Side :=
  if r.etasje == 8 && s8 then Side.R else r.side_unit

/-- The 16 cells of one entrance: one optional display text per side,
band and position (positions 0 to 3 are ever written). -/
def Cells : Type := Side → Band → Nat → Option Str

def emptyCells : Cells := fun _ _ _ => none

/-- Writing one cell, the item assignment of the source. -/
def setCell (cs : Cells) (s0 : Side) (b0 : Band) (p0 : Nat) (v : Str) : Cells :=
  fun s b p => if s = s0 ∧ b = b0 ∧ p = p0 then some v else cs s b p

/-- One iteration of the placement loop: skip floors outside the base
slot table, compute the effective side and the final index, skip
indices outside the window 0 to 7, and otherwise write the display
text into the cell given by the band and position of the index. -/
def placeRow (off : Nat) (s8 : Bool) (cs : Cells) (r : ApartmentRecord) : Cells :=
  match base_slot r.etasje with
  | none => cs
  | some bs =>
    if 0 ≤ (bs : Int) + (off : Int) ∧ (bs : Int) + (off : Int) ≤ 7 then
      if (bs : Int) + (off : Int) ≤ 3 then
        setCell cs (effSide s8 r) Band.TOP ((bs : Int) + (off : Int)).toNat r.display
      else
        setCell cs (effSide s8 r) Band.BOT ((bs : Int) + (off : Int) - 4).toNat r.display
    else cs

/-- The filled cells of one entrance group: the placement loop run over
the records in input order. -/
def fillCells (rows : List ApartmentRecord) : Cells :=
  rows.foldl (placeRow (offset rows) (single8 rows)) emptyCells

/-- The four cells of one side and band, in position order. -/
def linesOf (cs : Cells) (s : Side) (b : Band) : List (Option Str) :=
  [cs s b 0, cs s b 1, cs s b 2, cs s b 3]

structure Box where
  column : Side
  order : Nat
  lines : List (Option Str)
deriving DecidableEq

/-- build_boxes_for_oppgang: empty input gives no boxes; otherwise fill
the cells and return the four candidate boxes, dropping each box whose
lines are all empty (absent or the empty text, the truthiness test of
the source). -/
def build_boxes_for_oppgang (rows : List ApartmentRecord) : List Box :=
  if rows = [] then []
  else
    let cs := fillCells rows
    let boxes : List Box :=
      [⟨Side.L, 1, linesOf cs Side.L Band.TOP⟩,
       ⟨Side.R, 1, linesOf cs Side.R Band.TOP⟩,
       ⟨Side.L, 2, linesOf cs Side.L Band.BOT⟩,
       ⟨Side.R, 2, linesOf cs Side.R Band.BOT⟩]
    boxes.filter (fun b =>
      b.lines.any (fun o =>
        match o with
        | none => false
        | some t => decide (t ≠ [])))

def exceptIsErr {α : Type} : Except Str α → Bool
  | Except.error _ => true
  | Except.ok _ => false

/-- The entrance field of a successful parse (empty on failure). -/
def oppgangOf : Except Str Parsed → Str
  | Except.ok p => p.oppgang
  | Except.error _ => []

/-- The display texts of a successful ingestion (empty on failure). -/
def displaysOf : Except Str (List ApartmentRecord) → List Str
  | Except.ok l => l.map (fun r => r.display)
  | Except.error _ => []

/-- Does a record map to the given cell, under the given offset and
floor-8 flag?  This is the guard of one placement step: the floor is in
the base slot table, the final index lies in the window, and the
effective side, band and position are the ones of the cell. -/
def targets (off : Nat) (s8 : Bool) (s : Side) (b : Band) (p : Nat)
    (r : ApartmentRecord) : Bool :=
  match base_slot r.etasje with
  | none => false
  | some bs =>
    if bs + off ≤ 3 then decide (s = effSide s8 r ∧ b = Band.TOP ∧ p = bs + off)
    else if bs + off ≤ 7 then
      decide (s = effSide s8 r ∧ b = Band.BOT ∧ p = bs + off - 4)
    else false

/-- The last element of the list satisfying the test, if any. -/
def lastMatch (q : ApartmentRecord → Bool) :
    List ApartmentRecord → Option ApartmentRecord
  | [] => none
  | r :: rs =>
    match lastMatch q rs with
    | some x => some x
    | none => if q r then some r else none

/-- The record with its suffix-derived side swapped; the floor and
display are untouched. -/
def flipSide (r : ApartmentRecord) : ApartmentRecord :=
  ⟨r.seksjonsid, r.oppgang, r.etasje,
   r.unit,
   (match r.side_unit with
    | Side.L => Side.R
    | Side.R => Side.L),
   r.display⟩

/-- A concrete record: apartment on the given floor with unit suffix
01 (nominal side L), display text equal to the identifier. -/
def exRec (sid : String) (f : Nat) : ApartmentRecord :=
  ⟨(sid).data, ("A").data, f, ("01").data, Side.L, (sid).data⟩

/-- A concrete entrance group with one apartment on each of the floors
8 down to 2 and none on floor 1. -/
def ex2Rows : List ApartmentRecord :=
  [exRec ("A|H0801") 8, exRec ("A|H0701") 7, exRec ("A|H0601") 6,
   exRec ("A|H0501") 5, exRec ("A|H0401") 4, exRec ("A|H0301") 3,
   exRec ("A|H0201") 2]

/-- A concrete entrance group with apartments on floors 1 and 5 only,
so that floors 2, 3 and 4 are all absent and the offset is 3. -/
def exC10 : List ApartmentRecord :=
  [exRec ("B|H0101") 1, exRec ("B|H0501") 5]

/-- A single floor-8 record with suffix 01 (nominal side L). -/
def rec8a : ApartmentRecord := exRec ("A|H0801") 8

/-- A second floor-8 record, suffix 02 (side R). -/
def rec8b : ApartmentRecord :=
  ⟨("A|H0802").data, ("A").data, 8, ("02").data, Side.R, ("A|H0802").data⟩

/-- An input row whose identifier field is blank after trimming. -/
def blankRow : RawRow := ⟨(" ").data, []⟩

/-- An input row with a non-blank malformed identifier (no bar). -/
def badRow : RawRow := ⟨("A").data, []⟩

lemma rstrip_idem (s : Str) : rstrip (rstrip s) = rstrip s := by
  unfold rstrip
  rw [List.reverse_reverse, List.dropWhile_idempotent]

lemma rstrip_pyStrip (s : Str) : rstrip (pyStrip s) = pyStrip s := by
  unfold pyStrip
  rw [rstrip_idem]

lemma splitFirst_none_iff (sep : Char) (s : Str) :
    splitFirst sep s = none ↔ sep ∉ s := by
  induction s with
  | nil => simp [splitFirst]
  | cons c cs ih =>
    by_cases hc : c = sep
    · subst hc
      simp [splitFirst]
    · rw [splitFirst, if_neg hc]
      cases hsp : splitFirst sep cs with
      | none =>
        simp only [List.mem_cons]
        constructor
        · intro _ hmem
          rcases hmem with h | h
          · exact hc h.symm
          · exact (ih.mp hsp) h
        · intro _
          trivial
      | some pr =>
        simp only [List.mem_cons]
        constructor
        · intro h
          exact absurd h (by simp)
        · intro h
          exfalso
          have : sep ∈ cs := by
            by_contra hmem
            rw [ih.mpr hmem] at hsp
            exact Option.noConfusion hsp
          exact h (Or.inr this)

lemma splitFirst_eq_some (s : Str) (pr : Str × Str)
    (h : splitFirst '|' s = some pr) :
    pr.1 = beforeBar s ∧ pr.2 = afterBar s := by
  induction s generalizing pr with
  | nil => simp [splitFirst] at h
  | cons c cs ih =>
    by_cases hc : c = '|'
    · subst hc
      rw [splitFirst, if_pos rfl] at h
      cases h
      simp [beforeBar, afterBar]
    · rw [splitFirst, if_neg hc] at h
      cases hsp : splitFirst '|' cs with
      | none =>
        rw [hsp] at h
        exact Option.noConfusion h
      | some pr2 =>
        rw [hsp] at h
        cases h
        obtain ⟨h1, h2⟩ := ih pr2 hsp
        have hbeq : (c == '|') = false := by
          simp [hc]
        constructor
        · simp [beforeBar, List.takeWhile_cons, hbeq]
          exact h1
        · simp [afterBar, List.dropWhile_cons, hbeq]
          simpa [afterBar] using h2

lemma splitFirst_of_mem (s : Str) (h : '|' ∈ s) :
    splitFirst '|' s = some (beforeBar s, afterBar s) := by
  cases hsp : splitFirst '|' s with
  | none => exact absurd h ((splitFirst_none_iff '|' s).mp hsp)
  | some pr =>
    obtain ⟨h1, h2⟩ := splitFirst_eq_some s pr hsp
    rw [← h1, ← h2]

/-- Inversion of a successful parse: each field of the result in terms
of the input string. -/
lemma parse_ok_fields (s : Str) (p : Parsed)
    (h : parse_seksjonsid s = Except.ok p) :
    p.oppgang = pyUpper (pyStrip (beforeBar s)) ∧
    ∃ d4, regexLast4 (pyStrip (afterBar s)) = some d4 ∧
      p.etasje = digitsToNat (d4.take 2) ∧ p.unit = d4.drop 2 ∧
      p.side_by_unit = (if d4.drop 2 = ("01").data then Side.L else Side.R) := by
  unfold parse_seksjonsid at h
  split at h
  · exact Except.noConfusion h
  · split at h
    next heq => exact Except.noConfusion h
    next pr heq =>
      split at h
      next heq2 => exact Except.noConfusion h
      next d4 heq2 =>
        obtain ⟨h1, h2⟩ := splitFirst_eq_some s pr heq
        cases h
        refine ⟨by rw [← h1], d4, ?_, rfl, rfl, rfl⟩
        rw [← h2]
        exact heq2

lemma mem_present_iff (rows : List ApartmentRecord) (f : Nat) :
    f ∈ present_floors rows ↔ (∃ r ∈ rows, r.etasje = f) ∧ 1 ≤ f ∧ f ≤ 8 := by
  simp [present_floors, List.mem_filter, List.mem_map]

lemma offset_eq_countMissingBottom (rows : List ApartmentRecord) :
    offset rows = countMissingBottom rows := by
  unfold offset countMissingBottom
  congr 1
  apply List.filter_congr
  intro f _
  by_cases hf : f ∈ present_floors rows
  · have hp : (∃ r ∈ rows, r.etasje = f) ∧ 1 ≤ f ∧ f ≤ 8 :=
      (mem_present_iff rows f).mp hf
    simp [hf, hp]
  · have hp : ¬ ((∃ r ∈ rows, r.etasje = f) ∧ 1 ≤ f ∧ f ≤ 8) := by
      intro hcon
      exact hf ((mem_present_iff rows f).mpr hcon)
    simp [hf, hp]

lemma present_floors_flip (rows : List ApartmentRecord) :
    present_floors (rows.map flipSide) = present_floors rows := by
  unfold present_floors
  rw [List.map_map]
  rfl

lemma offset_flip (rows : List ApartmentRecord) :
    offset (rows.map flipSide) = offset rows := by
  unfold offset
  rw [present_floors_flip]

lemma base_slot_eq (f : Nat) (h1 : 1 ≤ f) (h2 : f ≤ 8) :
    base_slot f = some (8 - f) := by
  interval_cases f <;> rfl

/-- One placement step, rephrased over natural-number indices: the
final index decides the band and the position, and indices beyond 7
leave the cells untouched. -/
lemma placeRow_eq (off : Nat) (s8 : Bool) (cs : Cells) (r : ApartmentRecord)
    (bs : Nat) (hb : base_slot r.etasje = some bs) :
    placeRow off s8 cs r =
      if bs + off ≤ 3 then
        setCell cs (effSide s8 r) Band.TOP (bs + off) r.display
      else if bs + off ≤ 7 then
        setCell cs (effSide s8 r) Band.BOT (bs + off - 4) r.display
      else cs := by
  unfold placeRow
  simp only [hb]
  have e1 : ((bs : Int) + (off : Int)).toNat = bs + off := by omega
  have e2 : ((bs : Int) + (off : Int) - 4).toNat = bs + off - 4 := by omega
  rw [e1, e2]
  by_cases h7 : bs + off ≤ 7
  · rw [if_pos (show 0 ≤ (bs : Int) + (off : Int) ∧ (bs : Int) + (off : Int) ≤ 7 by omega)]
    by_cases h3 : bs + off ≤ 3
    · rw [if_pos (show (bs : Int) + (off : Int) ≤ 3 by omega), if_pos h3]
    · rw [if_neg (show ¬ (bs : Int) + (off : Int) ≤ 3 by omega), if_neg h3, if_pos h7]
  · rw [if_neg (show ¬ (0 ≤ (bs : Int) + (off : Int) ∧ (bs : Int) + (off : Int) ≤ 7) by omega),
      if_neg (show ¬ bs + off ≤ 3 by omega), if_neg h7]

lemma place_get (off : Nat) (s8 : Bool) (cs : Cells) (r : ApartmentRecord)
    (s : Side) (b : Band) (p : Nat) :
    placeRow off s8 cs r s b p =
      if targets off s8 s b p r then some r.display else cs s b p := by
  cases hbs : base_slot r.etasje with
  | none =>
    unfold placeRow targets
    simp [hbs]
  | some bs =>
    rw [placeRow_eq off s8 cs r bs hbs]
    unfold targets
    simp only [hbs]
    by_cases h3 : bs + off ≤ 3
    · simp only [if_pos h3, setCell]
      by_cases hc : s = effSide s8 r ∧ b = Band.TOP ∧ p = bs + off
      · simp [hc]
      · simp [hc]
    · by_cases h7 : bs + off ≤ 7
      · simp only [if_neg h3, if_pos h7, setCell]
        by_cases hc : s = effSide s8 r ∧ b = Band.BOT ∧ p = bs + off - 4
        · simp [hc]
        · simp [hc]
      · simp [if_neg h3, if_neg h7]

lemma fold_get (off : Nat) (s8 : Bool) (s : Side) (b : Band) (p : Nat)
    (rows : List ApartmentRecord) :
    ∀ cs : Cells,
      rows.foldl (placeRow off s8) cs s b p =
        match lastMatch (targets off s8 s b p) rows with
        | some q => some q.display
        | none => cs s b p := by
  induction rows with
  | nil => intro cs; rfl
  | cons r rs ih =>
    intro cs
    rw [List.foldl_cons, ih (placeRow off s8 cs r)]
    cases hlm : lastMatch (targets off s8 s b p) rs with
    | some q =>
      simp only [lastMatch, hlm]
    | none =>
      simp only [lastMatch, hlm]
      rw [place_get]
      by_cases hq : targets off s8 s b p r = true
      · simp [hq]
      · simp [hq]

lemma splitAll_cons_of_mem (sep : Char) (s : Str) (h : sep ∈ s) :
    splitAll sep s =
      s.takeWhile (fun c => !(c == sep)) ::
        splitAll sep ((s.dropWhile (fun c => !(c == sep))).tail) := by
  induction s with
  | nil => exact absurd h (List.not_mem_nil sep)
  | cons c cs ih =>
    by_cases hc : c = sep
    · subst hc
      rw [splitAll, if_pos rfl]
      simp [List.takeWhile_cons, List.dropWhile_cons]
    · have hbeq : (c == sep) = false := by simp [hc]
      have hmem : sep ∈ cs := by
        rcases List.mem_cons.mp h with h2 | h2
        · exact absurd h2.symm hc
        · exact h2
      rw [splitAll, if_neg hc, ih hmem]
      simp [List.takeWhile_cons, List.dropWhile_cons, hbeq]

lemma splitAll_of_not_mem (sep : Char) (s : Str) (h : sep ∉ s) :
    splitAll sep s = [s] := by
  induction s with
  | nil => rfl
  | cons c cs ih =>
    have hc : ¬ c = sep := by
      intro he
      exact h (he ▸ List.mem_cons_self c cs)
    have hmem : sep ∉ cs := fun h2 => h (List.mem_cons_of_mem c h2)
    rw [splitAll, if_neg hc, ih hmem]

/-- With exactly one bar in the identifier, the second split field is
everything after the bar. -/
lemma splitField1_single (s : Str) (hm : '|' ∈ s) (hnm : '|' ∉ afterBar s) :
    splitField1 '|' s = afterBar s := by
  unfold splitField1
  rw [splitAll_cons_of_mem '|' s hm]
  rw [show (s.dropWhile (fun c => !(c == '|'))).tail = afterBar s from rfl]
  rw [splitAll_of_not_mem '|' (afterBar s) hnm]
  rfl

/-- C1: for every entrance group the offset is the number of floors in
1 to 4 absent from the distinct floors of the group lying in 1 to 8,
and is a single value independent of the sides of the records; every
record with floor f in 1 to 8 has base slot 8 - f (the table 8 to 0, 7
to 1, down to 1 to 7), and one placement step writes it to band TOP at
position finalIndex when finalIndex is at most 3, to band BOT at
position finalIndex - 4 when finalIndex is between 4 and 7, and leaves
the cells untouched (no error) when finalIndex exceeds 7, where
finalIndex is the base slot plus the offset. -/
theorem c1_slot_assignment (rows : List ApartmentRecord) (r : ApartmentRecord)
    (cs : Cells) (h1 : 1 ≤ r.etasje) (h2 : r.etasje ≤ 8) :
    offset rows = countMissingBottom rows ∧
    offset (rows.map flipSide) = offset rows ∧
    base_slot r.etasje = some (8 - r.etasje) ∧
    (8 - r.etasje + offset rows ≤ 3 →
      placeRow (offset rows) (single8 rows) cs r =
        setCell cs (effSide (single8 rows) r) Band.TOP
          (8 - r.etasje + offset rows) r.display) ∧
    (4 ≤ 8 - r.etasje + offset rows → 8 - r.etasje + offset rows ≤ 7 →
      placeRow (offset rows) (single8 rows) cs r =
        setCell cs (effSide (single8 rows) r) Band.BOT
          (8 - r.etasje + offset rows - 4) r.display) ∧
    (7 < 8 - r.etasje + offset rows →
      placeRow (offset rows) (single8 rows) cs r = cs) := by
  have hb := base_slot_eq r.etasje h1 h2
  have hp := placeRow_eq (offset rows) (single8 rows) cs r (8 - r.etasje) hb
  refine ⟨offset_eq_countMissingBottom rows, offset_flip rows, hb, ?_, ?_, ?_⟩
  · intro h3
    rw [hp, if_pos h3]
  · intro h4 h7
    rw [hp, if_neg (by omega), if_pos h7]
  · intro h8
    rw [hp, if_neg (by omega), if_neg (by omega)]

/-- C1 witness: the concrete entrance group with floors 8 down to 2;
its floor-2 record has final index 7 and is written to band BOT at
position 3. -/
theorem c1_slot_assignment_witness :
    offset ex2Rows = countMissingBottom ex2Rows ∧
    placeRow (offset ex2Rows) (single8 ex2Rows) emptyCells (exRec ("A|H0201") 2) =
      setCell emptyCells (effSide (single8 ex2Rows) (exRec ("A|H0201") 2)) Band.BOT
        (8 - (exRec ("A|H0201") 2).etasje + offset ex2Rows - 4)
        (exRec ("A|H0201") 2).display :=
  ⟨(c1_slot_assignment ex2Rows (exRec ("A|H0201") 2) emptyCells
      (by decide) (by decide)).1,
   (c1_slot_assignment ex2Rows (exRec ("A|H0201") 2) emptyCells
      (by decide) (by decide)).2.2.2.2.1 (by decide) (by decide)⟩

/-- C3: in a group with exactly one floor-8 record, the effective side
of any floor-8 record is R regardless of its unit suffix; in a group
with two or more floor-8 records, every record keeps its suffix-derived
side. -/
theorem c3_floor8_override (rows : List ApartmentRecord) (r : ApartmentRecord) :
    ((floor8 rows).length = 1 → r.etasje = 8 →
      effSide (single8 rows) r = Side.R) ∧
    (2 ≤ (floor8 rows).length → effSide (single8 rows) r = r.side_unit) := by
  constructor
  · intro hlen h8
    have hs : single8 rows = true := by
      simp [single8, hlen]
    simp [effSide, h8, hs]
  · intro hlen
    have hs : single8 rows = false := by
      simp [single8]
      omega
    simp [effSide, hs]

/-- C3 witness: a lone floor-8 record with suffix 01 gets side R; with
two floor-8 records it keeps its suffix-derived side. -/
theorem c3_floor8_override_witness :
    effSide (single8 [rec8a]) rec8a = Side.R ∧
    effSide (single8 [rec8a, rec8b]) rec8a = rec8a.side_unit :=
  ⟨(c3_floor8_override [rec8a] rec8a).1 (by decide) (by decide),
   (c3_floor8_override [rec8a, rec8b] rec8a).2 (by decide)⟩

/-- C4: after slot assignment every cell holds at most one display
text, namely the display of the last record in input order that maps
to that cell (none when no record does), so the engine is
deterministic and its result depends only on the input order where
several records target one cell. -/
theorem c4_last_write_wins (rows : List ApartmentRecord) (s : Side) (b : Band)
    (p : Nat) :
    fillCells rows s b p =
      Option.map (fun q => q.display)
        (lastMatch (targets (offset rows) (single8 rows) s b p) rows) ∧
    build_boxes_for_oppgang rows = build_boxes_for_oppgang rows := by
  constructor
  · unfold fillCells
    rw [fold_get (offset rows) (single8 rows) s b p rows emptyCells]
    cases lastMatch (targets (offset rows) (single8 rows) s b p) rows with
    | none => rfl
    | some q => rfl
  · rfl

/-- C2 counterexample: in the concrete entrance whose present floors
are exactly 2 to 8, the floor-2 record (display A|H0201) does not sit
at BOT position 0 on either side; BOT position 0 on side L holds the
floor-5 record and the floor-2 record sits at BOT position 3. -/
theorem c2_counterexample :
    present_floors ex2Rows = [8, 7, 6, 5, 4, 3, 2] ∧
    offset ex2Rows = 1 ∧
    fillCells ex2Rows Side.L Band.BOT 0 = some (("A|H0501").data) ∧
    fillCells ex2Rows Side.R Band.BOT 0 = none ∧
    fillCells ex2Rows Side.L Band.BOT 3 = some (("A|H0201").data) ∧
    (("A|H0501").data ≠ ("A|H0201").data) := by
  decide

/-- C2 amended: for an entrance whose present floors are exactly 2 to
8 (only floor 1 missing), the offset is 1 and a record at floor 2 is
placed at slot 7, that is band BOT position 3 (not slot 6, and not
slot 4 / BOT position 0). -/
theorem c2_amended (rows : List ApartmentRecord) (r : ApartmentRecord)
    (cs : Cells)
    (hp : ∀ f : Nat, f ∈ present_floors rows ↔ (2 ≤ f ∧ f ≤ 8))
    (h2 : r.etasje = 2) :
    offset rows = 1 ∧
    placeRow (offset rows) (single8 rows) cs r =
      setCell cs r.side_unit Band.BOT 3 r.display := by
  have h1mem : ¬ (1 ∈ present_floors rows) := by
    intro h
    have := (hp 1).mp h
    omega
  have h2mem : 2 ∈ present_floors rows := (hp 2).mpr (by omega)
  have h3mem : 3 ∈ present_floors rows := (hp 3).mpr (by omega)
  have h4mem : 4 ∈ present_floors rows := (hp 4).mpr (by omega)
  have hoff : offset rows = 1 := by
    unfold offset
    simp [List.filter, h1mem, h2mem, h3mem, h4mem]
  refine ⟨hoff, ?_⟩
  have hb : base_slot r.etasje = some 6 := by
    rw [h2]
    rfl
  have he : effSide (single8 rows) r = r.side_unit := by
    unfold effSide
    rw [h2]
    simp
  rw [hoff, placeRow_eq 1 (single8 rows) cs r 6 hb,
    if_neg (by omega), if_pos (by omega), he]

/-- C2 amended witness: the concrete group with floors 8 down to 2 and
its floor-2 record. -/
theorem c2_amended_witness :
    offset ex2Rows = 1 ∧
    placeRow (offset ex2Rows) (single8 ex2Rows) emptyCells (exRec ("A|H0201") 2) =
      setCell emptyCells (exRec ("A|H0201") 2).side_unit Band.BOT 3
        (exRec ("A|H0201") 2).display :=
  c2_amended ex2Rows (exRec ("A|H0201") 2) emptyCells
    (by
      intro f
      rw [(by decide : present_floors ex2Rows = ([8, 7, 6, 5, 4, 3, 2] : List Nat))]
      simp only [List.mem_cons, List.not_mem_nil, or_false]
      omega)
    (by decide)

/-- C5 counterexample: the identifier with a space before the bar is
accepted with entrance A, but the text before the first bar uppercased
is A followed by a space, so the entrance is not simply the text
before the bar uppercased. -/
theorem c5_counterexample :
    exceptIsErr (parse_seksjonsid (("A |H0201").data)) = false ∧
    oppgangOf (parse_seksjonsid (("A |H0201").data)) = ("A").data ∧
    pyUpper (beforeBar (("A |H0201").data)) = ("A ").data ∧
    (("A").data ≠ ("A ").data) := by
  decide

/-- C5 amended: parse of E|H0201 gives entrance E, floor 2, suffix 01,
side Left; for every accepted identifier the side is Left exactly for
suffix 01 (any other suffix, 02 included, gives Right), the floor is
the integer value of the first two of the four trailing digits found
in the stripped portion after the bar, the suffix is the last two, and
the entrance is the text before the first bar stripped of surrounding
whitespace and uppercased. -/
theorem c5_amended :
    parse_seksjonsid (("E|H0201").data) =
      Except.ok ⟨("E").data, 2, ("01").data, Side.L⟩ ∧
    (∀ (s : Str) (p : Parsed), parse_seksjonsid s = Except.ok p →
      p.oppgang = pyUpper (pyStrip (beforeBar s)) ∧
      p.side_by_unit = (if p.unit = ("01").data then Side.L else Side.R) ∧
      ∃ d4, regexLast4 (pyStrip (afterBar s)) = some d4 ∧
        p.etasje = digitsToNat (d4.take 2) ∧ p.unit = d4.drop 2) := by
  constructor
  · decide
  · intro s p h
    obtain ⟨h1, d4, h2, h3, h4, h5⟩ := parse_ok_fields s p h
    refine ⟨h1, ?_, d4, h2, h3, h4⟩
    rw [h5, h4]

/-- C5 amended witness: the field characterization applied to the
concrete identifier E|H0201. -/
theorem c5_amended_witness :
    (⟨("E").data, 2, ("01").data, Side.L⟩ : Parsed).oppgang =
      pyUpper (pyStrip (beforeBar (("E|H0201").data))) ∧
    (⟨("E").data, 2, ("01").data, Side.L⟩ : Parsed).side_by_unit =
      (if (⟨("E").data, 2, ("01").data, Side.L⟩ : Parsed).unit = ("01").data
        then Side.L else Side.R) ∧
    ∃ d4, regexLast4 (pyStrip (afterBar (("E|H0201").data))) = some d4 ∧
      (⟨("E").data, 2, ("01").data, Side.L⟩ : Parsed).etasje =
        digitsToNat (d4.take 2) ∧
      (⟨("E").data, 2, ("01").data, Side.L⟩ : Parsed).unit = d4.drop 2 :=
  c5_amended.2 (("E|H0201").data) ⟨("E").data, 2, ("01").data, Side.L⟩ (by decide)

/-- C6 counterexample: the portion after the bar of A|H12345 ends in
five consecutive digits, hence not in exactly four, yet the parse
succeeds (floor 23, suffix 45), instead of failing as the claim
requires. -/
theorem c6_counterexample :
    endsInExactlyFourDigits (pyStrip (afterBar (("A|H12345").data))) = false ∧
    parse_seksjonsid (("A|H12345").data) =
      Except.ok ⟨("A").data, 23, ("45").data, Side.R⟩ := by
  decide

/-- C6 amended: parse fails exactly when the input is empty, contains
no bar, or the stripped portion after the first bar does not end in
four consecutive digits; a portion ending in five or more consecutive
digits is accepted, the last four being used. -/
theorem c6_amended (s : Str) :
    exceptIsErr (parse_seksjonsid s) = true ↔
      (s = [] ∨ '|' ∉ s ∨ endsIn4Digits (pyStrip (afterBar s)) = false) := by
  by_cases hs : s = []
  · subst hs
    simp [parse_seksjonsid, exceptIsErr]
  · unfold parse_seksjonsid
    rw [if_neg hs]
    cases hsp : splitFirst '|' s with
    | none =>
      have hnm : '|' ∉ s := (splitFirst_none_iff '|' s).mp hsp
      simp [exceptIsErr, hnm]
    | some pr =>
      have hmem : '|' ∈ s := by
        by_contra hnm
        rw [(splitFirst_none_iff '|' s).mpr hnm] at hsp
        exact Option.noConfusion hsp
      obtain ⟨h1, h2⟩ := splitFirst_eq_some s pr hsp
      dsimp only
      rw [h2]
      unfold regexLast4
      rw [rstrip_pyStrip]
      by_cases hd : endsIn4Digits (pyStrip (afterBar s)) = true
      · rw [if_pos hd]
        simp [exceptIsErr, hs, hmem, hd]
      · rw [Bool.not_eq_true] at hd
        rw [if_neg (by simp [hd])]
        simp [exceptIsErr, hd]

/-- C7 counterexample: for the identifier A|H0|0201 containing two
bars and a blank name, the ingested display text is H0, the field
between the first and second bar, not H0|0201, everything after the
first bar. -/
theorem c7_counterexample :
    displaysOf (read_rows [⟨("A|H0|0201").data, []⟩]) = [("H0").data] ∧
    pyUpper (afterBar (pyStrip (("A|H0|0201").data))) = ("H0|0201").data ∧
    (("H0").data ≠ ("H0|0201").data) := by
  decide

/-- C7 amended: for every ingested row the display text equals the
trimmed name uppercased when that is non-empty, and otherwise the
field of the identifier between the first and second bar (the second
field of splitting on the bar) uppercased; for identifiers containing
exactly one bar this field coincides with everything after the
separator. -/
theorem c7_amended (row : RawRow) (rec : ApartmentRecord)
    (h : processRow row = Except.ok (some rec)) :
    rec.display =
      pyUpper (if pyStrip row.navn = []
        then splitField1 '|' (pyStrip row.seksjonsid)
        else pyStrip row.navn) ∧
    ('|' ∈ pyStrip row.seksjonsid → '|' ∉ afterBar (pyStrip row.seksjonsid) →
      splitField1 '|' (pyStrip row.seksjonsid) =
        afterBar (pyStrip row.seksjonsid)) := by
  constructor
  · unfold processRow at h
    split at h
    · exact Option.noConfusion (Except.ok.inj h)
    · split at h
      next e heq => exact Except.noConfusion h
      next p heq =>
        have h2 := Option.some.inj (Except.ok.inj h)
        rw [← h2]
  · intro hm hnm
    exact splitField1_single (pyStrip row.seksjonsid) hm hnm

/-- C7 amended witness: the row with identifier A|H0301 and blank
name displays H0301. -/
theorem c7_amended_witness :
    (⟨("A|H0301").data, ("A").data, 3, ("01").data, Side.L,
        ("H0301").data⟩ : ApartmentRecord).display =
      pyUpper (if pyStrip (⟨("A|H0301").data, []⟩ : RawRow).navn = []
        then splitField1 '|' (pyStrip (⟨("A|H0301").data, []⟩ : RawRow).seksjonsid)
        else pyStrip (⟨("A|H0301").data, []⟩ : RawRow).navn) ∧
    ('|' ∈ pyStrip (⟨("A|H0301").data, []⟩ : RawRow).seksjonsid →
      '|' ∉ afterBar (pyStrip (⟨("A|H0301").data, []⟩ : RawRow).seksjonsid) →
      splitField1 '|' (pyStrip (⟨("A|H0301").data, []⟩ : RawRow).seksjonsid) =
        afterBar (pyStrip (⟨("A|H0301").data, []⟩ : RawRow).seksjonsid)) :=
  c7_amended ⟨("A|H0301").data, []⟩
    ⟨("A|H0301").data, ("A").data, 3, ("01").data, Side.L, ("H0301").data⟩
    (by decide)

/-- C8: the record ingested from the identifier A||0201 with a blank
name has an empty display text, violating the documented invariant
that the display text is never empty (the module docstring prescribes
showing the whole section identifier when the name is missing). -/
theorem c8_empty_display :
    read_rows [⟨("A||0201").data, []⟩] =
      Except.ok [⟨("A||0201").data, ("A").data, 2, ("01").data, Side.L, []⟩] ∧
    displaysOf (read_rows [⟨("A||0201").data, []⟩]) = [[]] := by
  decide

/-- C9: ingestion skips any row whose identifier is blank after
trimming, producing no record and no error; and when any row of the
input has a non-blank identifier that fails to parse, the whole
ingestion returns an error (so no record list is produced at all). -/
theorem c9_ingestion :
    (∀ (row : RawRow) (rest : List RawRow), pyStrip row.seksjonsid = [] →
      read_rows (row :: rest) = read_rows rest) ∧
    (∀ (rows : List RawRow) (row : RawRow), row ∈ rows →
      pyStrip row.seksjonsid ≠ [] →
      exceptIsErr (parse_seksjonsid (pyStrip row.seksjonsid)) = true →
      exceptIsErr (read_rows rows) = true) := by
  constructor
  · intro row rest hblank
    have hpr : processRow row = Except.ok none := by
      unfold processRow
      rw [if_pos hblank]
    simp only [read_rows, hpr]
  · intro rows
    induction rows with
    | nil =>
      intro row hmem
      exact absurd hmem (List.not_mem_nil row)
    | cons r rest ih =>
      intro row hmem hnb herr
      rcases List.mem_cons.mp hmem with heq | hmem2
      · subst heq
        have hpr : exceptIsErr (processRow row) = true := by
          unfold processRow
          rw [if_neg hnb]
          cases hps : parse_seksjonsid (pyStrip row.seksjonsid) with
          | error e => rfl
          | ok p =>
            rw [hps] at herr
            simp [exceptIsErr] at herr
        cases hpr2 : processRow row with
        | error e => simp [read_rows, hpr2, exceptIsErr]
        | ok o =>
          rw [hpr2] at hpr
          simp [exceptIsErr] at hpr
      · have htail := ih row hmem2 hnb herr
        cases hpr2 : processRow r with
        | error e => simp [read_rows, hpr2, exceptIsErr]
        | ok o =>
          cases o with
          | none =>
            simp only [read_rows, hpr2]
            exact htail
          | some rec =>
            cases hrr : read_rows rest with
            | error e => simp [read_rows, hpr2, hrr, exceptIsErr]
            | ok recs =>
              rw [hrr] at htail
              simp [exceptIsErr] at htail

/-- C9 witness: a blank-identifier row is skipped, and an input with a
malformed non-blank identifier makes the whole ingestion fail. -/
theorem c9_ingestion_witness :
    read_rows [blankRow] = read_rows ([] : List RawRow) ∧
    exceptIsErr (read_rows [badRow]) = true :=
  ⟨c9_ingestion.1 blankRow [] (by decide),
   c9_ingestion.2 [badRow] badRow (by decide) (by decide) (by decide)⟩

/-- C10: the final index of any record whose floor is in the base slot
table is non-negative, so the lower half of the window test never
excludes a record and a record is dropped exactly when its final index
exceeds 7; the drop is reachable: in the concrete group with floors 1
and 5 only (offset 3), the floor-1 record appears in no cell while the
floor-5 record is placed at band BOT position 2. -/
theorem c10_nonnegative_index (rows : List ApartmentRecord)
    (r : ApartmentRecord) (cs : Cells) (bs : Nat)
    (hb : base_slot r.etasje = some bs) :
    (0 : Int) ≤ (bs : Int) + (offset rows : Int) ∧
    placeRow (offset rows) (single8 rows) cs r =
      (if bs + offset rows ≤ 7 then
        setCell cs (effSide (single8 rows) r)
          (if bs + offset rows ≤ 3 then Band.TOP else Band.BOT)
          (if bs + offset rows ≤ 3 then bs + offset rows else bs + offset rows - 4)
          r.display
      else cs) ∧
    offset exC10 = 3 ∧
    (∀ (s : Side) (b : Band) (p : Nat), p ≤ 3 →
      fillCells exC10 s b p ≠ some (exRec ("B|H0101") 1).display) ∧
    fillCells exC10 Side.L Band.BOT 2 = some (exRec ("B|H0501") 5).display := by
  refine ⟨by omega, ?_, by decide, ?_, by decide⟩
  · rw [placeRow_eq (offset rows) (single8 rows) cs r bs hb]
    by_cases h3 : bs + offset rows ≤ 3
    · rw [if_pos h3, if_pos (show bs + offset rows ≤ 7 by omega),
        if_pos h3, if_pos h3]
    · rw [if_neg h3, if_neg h3, if_neg h3]
  · intro s b p hp
    interval_cases p <;> cases s <;> cases b <;> decide

/-- C10 witness: the floor-1 record of the concrete group has base
slot 7, final index 10, and one placement step leaves the cells
untouched. -/
theorem c10_witness :
    (0 : Int) ≤ ((7 : Nat) : Int) + (offset exC10 : Int) ∧
    placeRow (offset exC10) (single8 exC10) emptyCells (exRec ("B|H0101") 1) =
      (if 7 + offset exC10 ≤ 7 then
        setCell emptyCells (effSide (single8 exC10) (exRec ("B|H0101") 1))
          (if 7 + offset exC10 ≤ 3 then Band.TOP else Band.BOT)
          (if 7 + offset exC10 ≤ 3 then 7 + offset exC10 else 7 + offset exC10 - 4)
          (exRec ("B|H0101") 1).display
      else emptyCells) :=
  ⟨(c10_nonnegative_index exC10 (exRec ("B|H0101") 1) emptyCells 7 (by decide)).1,
   (c10_nonnegative_index exC10 (exRec ("B|H0101") 1) emptyCells 7 (by decide)).2.1⟩

end Intercom
